import Mathlib

/-!
Shallow embedding of `packages/arb-avm-cpp/avm/src/tokenTracker.cpp`:
the balance ledger (`BalanceTracker`), the ledger byte codec
(`serializeBalanceValues` / the byte-vector constructor), the block-reason
variants and codec (`BlockSerializer` / `deserializeBlockReason`), the
token-type helpers (`isToken`, `fromTokenType`, `toTokenType`) and the
`Message` adapter (`Message::deserialize`).

Machine integers are modelled as `Nat`; `uint256_t` values are naturals that
the C++ type keeps below `2 ^ 256`.  Bytes are naturals below 256.  C++
behavior that aborts or is undefined (a thrown `std::out_of_range`, a read
through an iterator past the end of a buffer, falling off the end of a
non-void function) is modelled as `Option.none`: the surrounding operation
does not produce a value.  Hash-table state (`std::unordered_map` /
`std::unordered_set`) is modelled as association lists with unique keys;
iteration order of the model is the list order.
-/

namespace ArbAvm

/-- Big-endian byte encoding of `v` in exactly `w` bytes (the semantics of
`to_big_endian` over a `w`-byte window): most significant byte first, value
taken modulo `256 ^ w`. -/
def beBytes : Nat → Nat → List Nat
  | 0, _ => []
  | w + 1, v => beBytes w (v / 256) ++ [v % 256]

/-- Big-endian value of a byte list (the semantics of `from_big_endian`). -/
def fromBE (l : List Nat) : Nat :=
  l.foldl (fun a b => a * 256 + b) 0

/-- Modelled from the spec: the leading format byte of the external 33-byte
integer encoding ("1 format byte + 32-byte big-endian magnitude", spec §6).
Its concrete value is owned by the external integer codec (`bigint_utils`,
not under `src/`); nothing here depends on it. -/
def fmtByte : Nat := 0

/-- Modelled from the spec: `marshal_uint256_t` of `bigint_utils` (not under
`src/`), per spec §6 a fixed 33-byte encoding: 1 format byte followed by the
32-byte big-endian magnitude of the 256-bit value. -/
def marshal_uint256 (v : Nat) : List Nat :=
  fmtByte :: beBytes 32 v

/-- Modelled from the spec: `deserialize_int256` of `bigint_utils` (not under
`src/`): consumes 33 bytes (1 format byte + 32-byte big-endian magnitude)
from the front of the given window and returns the magnitude.  A window
shorter than 33 bytes means the C++ routine reads past the end of the
caller's buffer (undefined behavior), modelled as `none`. -/
def deserialize_int256 (l : List Nat) : Option Nat :=
  if 33 ≤ l.length then some (fromBE ((l.drop 1).take 32)) else none

/-- Modelled from the spec: 256-bit checked addition.  `uint256_t` lives in
`bigint_utils.hpp` (not under `src/`); per spec §7 overflow on `add` "must be
treated as a fatal condition, not silently wrapped", so a sum reaching
`2 ^ 256` is fatal (`none`) rather than reduced modulo `2 ^ 256`. -/
def checkedAdd (a b : Nat) : Option Nat :=
  if a + b < 2 ^ 256 then some (a + b) else none

/-- `TokenType`: a 21-byte array (`std::array<unsigned char, 21>`), modelled
as a list of naturals; well-formed values have length 21 and bytes < 256. -/
abbrev TokenType := List Nat

/-- `isToken` (tokenTracker.cpp:53-55): `tok[20] == 0`.  A well-formed
`TokenType` always has index 20; the default of `getD` is never reached. -/
def isToken (tok : TokenType) : Bool :=
  tok.getD 20 0 == 0

/-- `fromTokenType` (tokenTracker.cpp:57-62): zero-fill a 32-byte array, copy
the 21 token bytes to its front, and read the whole array big-endian. -/
def fromTokenType (tok : TokenType) : Nat :=
  fromBE (tok ++ List.replicate (32 - tok.length) 0)

/-- `toTokenType` (tokenTracker.cpp:64-70): write the value big-endian into a
32-byte array and copy the first 21 bytes into the token. -/
def toTokenType (v : Nat) : TokenType :=
  (beBytes 32 v).take 21

/-- `nftKey` (declared in the header): token type plus 256-bit instance id. -/
abbrev NftKey := TokenType × Nat

/-- First-match lookup in an association list, modelling
`std::unordered_map<TokenType, uint256_t>::at` / `find` on a map whose keys
are unique. -/
def lookupTT : List (TokenType × Nat) → TokenType → Option Nat
  | [], _ => none
  | (k, v) :: rest, t => if k = t then some v else lookupTT rest t

/-- Store `v` under `t`, replacing an existing binding and otherwise
appending: the map update performed by `operator[]` / `insert`. -/
def setTok : List (TokenType × Nat) → TokenType → Nat → List (TokenType × Nat)
  | [], t, v => [(t, v)]
  | (k, w) :: rest, t, v =>
    if k = t then (t, v) :: rest else (k, w) :: setTok rest t v

/-- Membership test of `std::unordered_set<nftKey>::find`. -/
def containsNft : List NftKey → NftKey → Bool
  | [], _ => false
  | k :: rest, key => if k = key then true else containsNft rest key

/-- `std::unordered_set<nftKey>::insert`: no effect when already present. -/
def insertNft (s : List NftKey) (key : NftKey) : List NftKey :=
  if containsNft s key then s else s ++ [key]

/-- `std::unordered_set<nftKey>::erase`: remove the (unique) matching
element. -/
def eraseNft : List NftKey → NftKey → List NftKey
  | [], _ => []
  | k :: rest, key => if k = key then rest else k :: eraseNft rest key

/-- `BalanceTracker` state: the fungible-balance map `tokenLookup` and the
owned-asset set `nftLookup`. -/
structure BalanceTracker where
  tokenLookup : List (TokenType × Nat)
  nftLookup : List NftKey
  deriving DecidableEq

/-- The default constructor `BalanceTracker::BalanceTracker()`. -/
def emptyTracker : BalanceTracker := ⟨[], []⟩

/-- `BalanceTracker::tokenValue` (tokenTracker.cpp:110-113): a `const`
method returning `tokenLookup.at(tokType)`.  `at` throws
`std::out_of_range` when the key is absent (`none`).  The
`assert(isToken(tokType))` is a debug-build precondition compiled out under
`NDEBUG` and is not part of the modelled behavior.  The method is `const`,
so the state it is called on comes back unchanged. -/
def BalanceTracker.tokenValue (b : BalanceTracker) (tokType : TokenType) :
    Option (Nat × BalanceTracker) :=
  (lookupTT b.tokenLookup tokType).map (fun v => (v, b))

/-- `BalanceTracker::hasNFT` (tokenTracker.cpp:115-120): a `const` method,
`nftLookup.find(key) != nftLookup.end()`. -/
def BalanceTracker.hasNFT (b : BalanceTracker) (tokType : TokenType) (id : Nat) :
    Bool × BalanceTracker :=
  (containsNft b.nftLookup (tokType, id), b)

/-- `BalanceTracker::canSpend` (tokenTracker.cpp:122-131): for a fungible
token, `amount <= tokenValue(tokType)` (the `tokenValue` call may throw);
otherwise `hasNFT(tokType, amount)`. -/
def BalanceTracker.canSpend (b : BalanceTracker) (tokType : TokenType)
    (amount : Nat) : Option (Bool × BalanceTracker) :=
  if isToken tokType then
    (b.tokenValue tokType).map (fun p => (decide (amount ≤ p.1), p.2))
  else
    some ((b.hasNFT tokType amount).1, (b.hasNFT tokType amount).2)

/-- `BalanceTracker::spend` (tokenTracker.cpp:133-145): return `false`
without mutation when `canSpend` is false; otherwise subtract the amount
from the fungible balance (`tokenLookup[tokType] -= amount`, guarded by
`canSpend` so it cannot underflow) or erase the asset key. -/
def BalanceTracker.spend (b : BalanceTracker) (tokType : TokenType)
    (amount : Nat) : Option (Bool × BalanceTracker) :=
  match b.canSpend tokType amount with
  | none => none
  | some (false, b1) => some (false, b1)
  | some (true, b1) =>
    if isToken tokType then
      some (true, { b1 with
        tokenLookup :=
          setTok b1.tokenLookup tokType
            ((lookupTT b1.tokenLookup tokType).getD 0 - amount) })
    else
      some (true, { b1 with nftLookup := eraseNft b1.nftLookup (tokType, amount) })

/-- `BalanceTracker::add` (tokenTracker.cpp:147-156): for a fungible token,
insert a zero entry when absent and add the amount to it (checked 256-bit
addition, see `checkedAdd`); for a non-fungible token, insert the asset
key. -/
def BalanceTracker.add (b : BalanceTracker) (tokType : TokenType)
    (amount : Nat) : Option BalanceTracker :=
  if isToken tokType then
    match checkedAdd ((lookupTT b.tokenLookup tokType).getD 0) amount with
    | some v => some { b with tokenLookup := setTok b.tokenLookup tokType v }
    | none => none
  else
    some { b with nftLookup := insertNft b.nftLookup (tokType, amount) }

/-- The 4-byte little-endian `memcpy` image of the entry count written as the
ledger header (tokenTracker.cpp:162-168); the decoder skips these bytes. -/
def leBytes4 (n : Nat) : List Nat :=
  [n % 256, n / 256 % 256, n / 256 ^ 2 % 256, n / 256 ^ 3 % 256]

/-- The entry loop of `BalanceTracker::serializeBalanceValues`
(tokenTracker.cpp:170-179): for each pair, the 21 key bytes followed by the
33-byte marshalled value. -/
def serializeEntries : List (TokenType × Nat) → List Nat
  | [] => []
  | (t, v) :: rest => t ++ marshal_uint256 v ++ serializeEntries rest

/-- `BalanceTracker::serializeBalanceValues` (tokenTracker.cpp:159-182):
4-byte count header, then one 54-byte record per fungible entry. -/
def serializeBalanceValues (b : BalanceTracker) : List Nat :=
  leBytes4 b.tokenLookup.length ++ serializeEntries b.tokenLookup

/-- The `while (current_it != data.end())` loop of the byte-vector
constructor (tokenTracker.cpp:189-202): copy 21 key bytes, slice 33 value
bytes, deserialize, `add`, repeat.  The loop has no length checks: when
fewer than a whole 54-byte record remains (but the buffer is not exhausted)
the 21-byte copy and 33-byte slice read past `data.end()` and the iterator
steps over `data.end()` without ever comparing equal to it — undefined
behavior, modelled as `none`. -/
def decodeEntries (b : BalanceTracker) (data : List Nat) : Option BalanceTracker :=
  if data.isEmpty then some b
  else if 54 ≤ data.length then
    match deserialize_int256 ((data.drop 21).take 33) with
    | some v =>
      match b.add (data.take 21) v with
      | some b1 => decodeEntries b1 (data.drop 54)
      | none => none
    | none => none
  else none
  termination_by data.length
  decreasing_by
    simp only [List.length_drop]
    cases data with
    | nil => simp [List.isEmpty] at *
    | cons x xs => simp; omega

/-- `BalanceTracker::BalanceTracker(std::vector<unsigned char>)`
(tokenTracker.cpp:186-203): advance the iterator past the 4 header bytes
(undefined behavior when the buffer is shorter than 4 bytes) and run the
entry loop over the rest. -/
def balanceTrackerFromData (data : List Nat) : Option BalanceTracker :=
  if 4 ≤ data.length then decodeEntries emptyTracker (data.drop 4) else none

/-- Modelled from the spec: the external generic tagged value (`value`,
outside `src/`), per spec §6 "capable of holding either an opaque payload,
an integer, or a 4-element ordered structure".  `otherVal` stands for every
alternative that is neither an integer nor a tuple. -/
inductive AvmValue where
  | intVal (n : Nat)
  | tupVal (elems : List AvmValue)
  | otherVal

/-- `Message` (declared in the header): payload value, destination, currency
and token type. -/
structure Message where
  data : AvmValue
  destination : Nat
  currency : Nat
  token : TokenType

/-- `Message::deserialize` (tokenTracker.cpp:72-104): check that the value
is a 4-tuple and that elements 1, 2 and 3 are integers; only after every
check passes are the four fields assigned.  Returns the success flag and the
message object after the call. -/
def Message.deserialize (m : Message) (val : AvmValue) : Bool × Message :=
  match val with
  | .intVal _ => (false, m)
  | .otherVal => (false, m)
  | .tupVal elems =>
    if elems.length ≠ 4 then (false, m)
    else
      match elems.getD 1 .otherVal with
      | .intVal destInt =>
        match elems.getD 2 .otherVal with
        | .intVal currencyInt =>
          match elems.getD 3 .otherVal with
          | .intVal tokInt =>
            (true, ⟨elems.getD 0 .otherVal, destInt, currencyInt, toTokenType tokInt⟩)
          | _ => (false, m)
        | _ => (false, m)
      | _ => (false, m)

/-- `BlockReason` (declared in the header): the closed set of six variants;
`InboxBlocked` carries the inbox index, `SendBlocked` the currency amount
and the token type. -/
inductive BlockReason where
  | NotBlocked
  | HaltBlocked
  | ErrorBlocked
  | BreakpointBlocked
  | InboxBlocked (inbox : Nat)
  | SendBlocked (currency : Nat) (tokenType : TokenType)
  deriving DecidableEq

/-- The `BlockType` tag byte of each variant.  The enum is declared in the
header (not under `src/`) with no explicit values, so the tags are the
consecutive values 0..5 in the declaration order `Not, Halt, Error,
Breakpoint, Inbox, Send` used by `blockreason_type_length`
(tokenTracker.cpp:259-260). -/
def blockTypeTag : BlockReason → Nat
  | .NotBlocked => 0
  | .HaltBlocked => 1
  | .ErrorBlocked => 2
  | .BreakpointBlocked => 3
  | .InboxBlocked _ => 4
  | .SendBlocked _ _ => 5

/-- `SerializeBlockReason` via `BlockSerializer` (tokenTracker.cpp:205-264):
the tag byte alone for the four payload-free variants; tag byte plus the
33-byte marshalled inbox index for `InboxBlocked`; tag byte plus the
33-byte marshalled currency plus the 21 token bytes for `SendBlocked`. -/
def serializeBlockReason : BlockReason → List Nat
  | .NotBlocked => [0]
  | .HaltBlocked => [1]
  | .ErrorBlocked => [2]
  | .BreakpointBlocked => [3]
  | .InboxBlocked inbox => 4 :: marshal_uint256 inbox
  | .SendBlocked currency tokenType => 5 :: marshal_uint256 currency ++ tokenType

/-- `deserializeBlockReason` (tokenTracker.cpp:271-310).  Read the tag byte
(dereferencing `begin()` of an empty vector is undefined behavior: `none`),
then dispatch:
* `Inbox` slices the window `[current_it + 1, current_it + 32)` — buffer
  indices 2..32, 31 bytes (constructing those iterators needs index 33 to be
  within the buffer) — and hands it to the 33-byte reader
  `deserialize_int256`, which therefore always reads past the window;
* `Send` slices the same 31-byte window for the currency, then copies the 21
  token bytes from index 34 (needing index 55 within the buffer);
* the four payload-free tags return their variant directly;
* a tag outside 0..5 matches no `case` and control falls off the end of the
  function without a return — undefined behavior, `none`.
There is no length check and no error result of any kind in the source. -/
def deserializeBlockReason (data : List Nat) : Option BlockReason :=
  match data with
  | [] => none
  | tag :: _ =>
    if tag = 0 then some .NotBlocked
    else if tag = 1 then some .HaltBlocked
    else if tag = 2 then some .ErrorBlocked
    else if tag = 3 then some .BreakpointBlocked
    else if tag = 4 then
      if 33 ≤ data.length then
        (deserialize_int256 ((data.drop 2).take 31)).map (fun inbox =>
          .InboxBlocked inbox)
      else none
    else if tag = 5 then
      if 33 ≤ data.length then
        match deserialize_int256 ((data.drop 2).take 31) with
        | some currency =>
          if 55 ≤ data.length then
            some (.SendBlocked currency ((data.drop 34).take 21))
          else none
        | none => none
      else none
    else none

/-- The all-zero (fungible) 21-byte token identity. -/
def zeroTok : TokenType := List.replicate 21 0

/-- A non-fungible token identity: 20 zero bytes and last byte 1. -/
def badTok : TokenType := List.replicate 20 0 ++ [1]

/-- A tracker holding 5 units of the zero fungible token. -/
def sampleTracker : BalanceTracker := ⟨[(zeroTok, 5)], []⟩

/-- A tracker whose zero-token balance sits at the 256-bit maximum. -/
def maxTracker : BalanceTracker := ⟨[(zeroTok, 2 ^ 256 - 1)], []⟩

/-- A concrete message used to exercise `Message::deserialize`. -/
def sampleMessage : Message := ⟨.otherVal, 0, 0, zeroTok⟩

/-! Helper lemmas shared by the claim theorems. -/

theorem tokenValue_state {b b1 : BalanceTracker} {t : TokenType} {v : Nat}
    (h : b.tokenValue t = some (v, b1)) :
    b1 = b ∧ lookupTT b.tokenLookup t = some v := by
  unfold BalanceTracker.tokenValue at h
  cases hl : lookupTT b.tokenLookup t with
  | none => rw [hl] at h; simp at h
  | some w =>
    rw [hl] at h
    simp only [Option.map_some', Option.some.injEq, Prod.mk.injEq] at h
    exact ⟨h.2.symm, congrArg some h.1⟩

theorem canSpend_state {b b1 : BalanceTracker} {t : TokenType} {a : Nat} {r : Bool}
    (h : b.canSpend t a = some (r, b1)) : b1 = b := by
  unfold BalanceTracker.canSpend at h
  by_cases hf : isToken t
  · rw [if_pos hf] at h
    cases hl : b.tokenValue t with
    | none => rw [hl] at h; simp at h
    | some p =>
      obtain ⟨w, b2⟩ := p
      rw [hl] at h
      simp only [Option.map_some', Option.some.injEq, Prod.mk.injEq] at h
      rw [← h.2]
      exact (tokenValue_state hl).1
  · rw [if_neg hf] at h
    unfold BalanceTracker.hasNFT at h
    simp only [Option.some.injEq, Prod.mk.injEq] at h
    exact h.2.symm

theorem lookupTT_eq_none_iff (m : List (TokenType × Nat)) (t : TokenType) :
    lookupTT m t = none ↔ ∀ v, (t, v) ∉ m := by
  induction m with
  | nil => simp [lookupTT]
  | cons p rest ih =>
    obtain ⟨k, w⟩ := p
    simp only [lookupTT, List.mem_cons]
    split
    · rename_i hk
      subst hk
      constructor
      · intro h
        exact absurd h (by simp)
      · intro h
        exact ((h w) (Or.inl rfl)).elim
    · rename_i hk
      rw [ih]
      constructor
      · intro h v hv
        rcases hv with hv | hv
        · exact hk (congrArg Prod.fst hv).symm
        · exact h v hv
      · intro h v hv
        exact h v (Or.inr hv)

theorem lookupTT_some_mem {m : List (TokenType × Nat)} {t : TokenType} {v : Nat}
    (h : lookupTT m t = some v) : (t, v) ∈ m := by
  induction m with
  | nil => simp [lookupTT] at h
  | cons p rest ih =>
    obtain ⟨k, w⟩ := p
    simp only [lookupTT] at h
    split at h
    · rename_i hk
      subst hk
      simp only [Option.some.injEq] at h
      subst h
      exact List.mem_cons_self _ _
    · exact List.mem_cons_of_mem _ (ih h)

theorem beBytes_length (w v : Nat) : (beBytes w v).length = w := by
  induction w generalizing v with
  | zero => rfl
  | succ w ih => simp [beBytes, ih]

theorem fromBE_foldl (ys : List Nat) : ∀ init : Nat,
    ys.foldl (fun a b => a * 256 + b) init = init * 256 ^ ys.length + fromBE ys := by
  induction ys with
  | nil => intro init; simp [fromBE]
  | cons y ys ih =>
    intro init
    have hy : fromBE (y :: ys) = y * 256 ^ ys.length + fromBE ys := by
      show ys.foldl _ (0 * 256 + y) = _
      rw [ih (0 * 256 + y)]
      ring_nf
    show ys.foldl _ (init * 256 + y) = _
    rw [ih (init * 256 + y), hy, List.length_cons]
    ring

theorem fromBE_append (xs ys : List Nat) :
    fromBE (xs ++ ys) = fromBE xs * 256 ^ ys.length + fromBE ys := by
  show (xs ++ ys).foldl (fun a b => a * 256 + b) 0 = _
  rw [List.foldl_append]
  exact fromBE_foldl ys _

theorem fromBE_singleton (y : Nat) : fromBE [y] = y := by
  simp [fromBE]

theorem fromBE_replicate_zero (k : Nat) : fromBE (List.replicate k 0) = 0 := by
  induction k with
  | zero => rfl
  | succ k ih =>
    rw [List.replicate_succ]
    show (List.replicate k 0).foldl (fun a b => a * 256 + b) (0 * 256 + 0) = 0
    simpa [fromBE] using ih

theorem fromBE_beBytes (w v : Nat) (h : v < 256 ^ w) : fromBE (beBytes w v) = v := by
  induction w generalizing v with
  | zero =>
    have : v = 0 := by simpa using h
    simp [beBytes, fromBE, this]
  | succ w ih =>
    show fromBE (beBytes w (v / 256) ++ [v % 256]) = v
    rw [fromBE_append, fromBE_singleton]
    have h1 : v / 256 < 256 ^ w := by
      rw [Nat.div_lt_iff_lt_mul (by norm_num)]
      calc v < 256 ^ (w + 1) := h
        _ = 256 ^ w * 256 := by rw [pow_succ]
    rw [ih _ h1]
    simp only [List.length_singleton, pow_one]
    omega

theorem beBytes_bytes_lt (w v : Nat) : ∀ x ∈ beBytes w v, x < 256 := by
  induction w generalizing v with
  | zero => simp [beBytes]
  | succ w ih =>
    intro x hx
    simp only [beBytes, List.mem_append, List.mem_singleton] at hx
    rcases hx with hx | hx
    · exact ih (v / 256) x hx
    · subst hx; exact Nat.mod_lt _ (by norm_num)

theorem beBytes_split (a b v : Nat) :
    beBytes (a + b) v = beBytes a (v / 256 ^ b) ++ beBytes b (v % 256 ^ b) := by
  induction b generalizing v with
  | zero => simp [beBytes]
  | succ b ih =>
    show beBytes (a + b) (v / 256) ++ [v % 256] = _
    rw [ih (v / 256)]
    have e1 : v / 256 / 256 ^ b = v / 256 ^ (b + 1) := by
      rw [Nat.div_div_eq_div_mul]
      congr 1
      rw [pow_succ, Nat.mul_comm]
    have e2 : v % 256 ^ (b + 1) / 256 = v / 256 % 256 ^ b := by
      have h := Nat.mod_mul_right_div_self v 256 (256 ^ b)
      rwa [show (256 : Nat) * 256 ^ b = 256 ^ (b + 1) by rw [pow_succ, Nat.mul_comm]] at h
    have e3 : v % 256 ^ (b + 1) % 256 = v % 256 :=
      Nat.mod_mod_of_dvd v ⟨256 ^ b, by rw [pow_succ, Nat.mul_comm]⟩
    rw [show beBytes (b + 1) (v % 256 ^ (b + 1)) =
        beBytes b (v % 256 ^ (b + 1) / 256) ++ [v % 256 ^ (b + 1) % 256] from rfl]
    rw [e1, e2, e3, List.append_assoc]

theorem beBytes_fromBE (l : List Nat) (h : ∀ x ∈ l, x < 256) :
    beBytes l.length (fromBE l) = l := by
  induction l using List.reverseRecOn with
  | nil => rfl
  | append_singleton ys y ih =>
    have hy : y < 256 := h y (by simp)
    have hys : ∀ x ∈ ys, x < 256 := fun x hx => h x (by simp [hx])
    rw [fromBE_append, fromBE_singleton]
    simp only [List.length_append, List.length_singleton, pow_one]
    show beBytes ys.length ((fromBE ys * 256 + y) / 256) ++
      [(fromBE ys * 256 + y) % 256] = ys ++ [y]
    have hdiv : (fromBE ys * 256 + y) / 256 = fromBE ys := by omega
    have hmod : (fromBE ys * 256 + y) % 256 = y := by omega
    rw [hdiv, hmod, ih hys]

theorem lookupTT_append_none {m1 : List (TokenType × Nat)}
    (m2 : List (TokenType × Nat)) (t : TokenType) (h : lookupTT m1 t = none) :
    lookupTT (m1 ++ m2) t = lookupTT m2 t := by
  induction m1 with
  | nil => rfl
  | cons p rest ih =>
    obtain ⟨k, w⟩ := p
    simp only [lookupTT] at h
    by_cases hk : k = t
    · rw [if_pos hk] at h
      exact absurd h (by simp)
    · rw [if_neg hk] at h
      show (if k = t then some w else lookupTT (rest ++ m2) t) = lookupTT m2 t
      rw [if_neg hk]
      exact ih h

theorem setTok_absent {m : List (TokenType × Nat)} {t : TokenType} (v : Nat)
    (h : lookupTT m t = none) : setTok m t v = m ++ [(t, v)] := by
  induction m with
  | nil => rfl
  | cons p rest ih =>
    obtain ⟨k, w⟩ := p
    simp only [lookupTT] at h
    by_cases hk : k = t
    · rw [if_pos hk] at h
      exact absurd h (by simp)
    · rw [if_neg hk] at h
      simp only [setTok]
      rw [if_neg hk, ih h]
      rfl

theorem add_fresh (b : BalanceTracker) (t : TokenType) (v : Nat)
    (hf : isToken t = true) (hv : v < 2 ^ 256)
    (hfresh : lookupTT b.tokenLookup t = none) :
    b.add t v = some ⟨b.tokenLookup ++ [(t, v)], b.nftLookup⟩ := by
  unfold BalanceTracker.add checkedAdd
  rw [if_pos hf, hfresh]
  simp only [Option.getD_none]
  rw [if_pos (by omega)]
  show (some (BalanceTracker.mk (setTok b.tokenLookup t (0 + v)) b.nftLookup) :
    Option BalanceTracker) = _
  rw [Nat.zero_add, setTok_absent v hfresh]

theorem deserialize_marshal (v : Nat) (hv : v < 2 ^ 256) :
    deserialize_int256 (marshal_uint256 v) = some v := by
  have hml : (marshal_uint256 v).length = 33 := by
    simp [marshal_uint256, beBytes_length]
  unfold deserialize_int256
  rw [if_pos (by simp [hml])]
  rw [show (marshal_uint256 v).drop 1 = beBytes 32 v from rfl]
  rw [List.take_of_length_le (by rw [beBytes_length])]
  rw [fromBE_beBytes 32 v (by
    have h8 : (256 : Nat) ^ 32 = 2 ^ 256 := by norm_num
    omega)]

theorem decodeEntries_step (b : BalanceTracker) (t : TokenType) (v : Nat)
    (rest : List Nat) (hl : t.length = 21) (hv : v < 2 ^ 256)
    (hf : isToken t = true) (hfresh : lookupTT b.tokenLookup t = none) :
    decodeEntries b (t ++ marshal_uint256 v ++ rest) =
      decodeEntries ⟨b.tokenLookup ++ [(t, v)], b.nftLookup⟩ rest := by
  have hml : (marshal_uint256 v).length = 33 := by
    simp [marshal_uint256, beBytes_length]
  have hempty : (t ++ (marshal_uint256 v ++ rest)).isEmpty = false := by
    rw [List.isEmpty_eq_false]
    intro h0
    have := congrArg List.length h0
    simp [hl] at this
  have h54 : 54 ≤ (t ++ (marshal_uint256 v ++ rest)).length := by
    simp only [List.length_append, hl, hml]
    omega
  have hdrop21 : (t ++ (marshal_uint256 v ++ rest)).drop 21 = marshal_uint256 v ++ rest :=
    List.drop_left' hl
  have htake21 : (t ++ (marshal_uint256 v ++ rest)).take 21 = t :=
    List.take_left' hl
  have htake33 : (marshal_uint256 v ++ rest).take 33 = marshal_uint256 v :=
    List.take_left' hml
  have hdrop54 : (t ++ (marshal_uint256 v ++ rest)).drop 54 = rest := by
    rw [show (54 : Nat) = 21 + 33 from rfl, ← List.drop_drop, hdrop21,
      List.drop_left' hml]
  rw [List.append_assoc]
  conv_lhs => rw [decodeEntries.eq_def]
  rw [hempty]
  simp only [Bool.false_eq_true, if_false]
  rw [if_pos h54, hdrop21, htake33, deserialize_marshal v hv, htake21]
  show (match b.add t v with
    | some b1 => decodeEntries b1 (List.drop 54 (t ++ (marshal_uint256 v ++ rest)))
    | none => none) = _
  rw [add_fresh b t v hf hv hfresh]
  show decodeEntries ⟨b.tokenLookup ++ [(t, v)], b.nftLookup⟩
    (List.drop 54 (t ++ (marshal_uint256 v ++ rest))) = _
  rw [hdrop54]

theorem decodeEntries_serializeEntries (L : List (TokenType × Nat)) :
    ∀ b : BalanceTracker,
    (∀ p ∈ L, isToken p.1 = true ∧ p.1.length = 21 ∧ p.2 < 2 ^ 256) →
    (∀ p ∈ L, lookupTT b.tokenLookup p.1 = none) →
    (L.map Prod.fst).Nodup →
    decodeEntries b (serializeEntries L) = some ⟨b.tokenLookup ++ L, b.nftLookup⟩ := by
  induction L with
  | nil =>
    intro b _ _ _
    rw [serializeEntries, decodeEntries]
    cases b
    simp
  | cons p rest ih =>
    obtain ⟨t, v⟩ := p
    intro b hwf hfresh hnd
    obtain ⟨hf, hl, hv⟩ := hwf (t, v) (List.mem_cons_self _ _)
    have hfr : lookupTT b.tokenLookup t = none :=
      hfresh (t, v) (List.mem_cons_self _ _)
    rw [serializeEntries, decodeEntries_step b t v _ hl hv hf hfr]
    rw [List.map_cons, List.nodup_cons] at hnd
    rw [ih ⟨b.tokenLookup ++ [(t, v)], b.nftLookup⟩
      (fun q hq => hwf q (List.mem_cons_of_mem _ hq))
      (fun q hq => by
        have hq1 : lookupTT b.tokenLookup q.1 = none :=
          hfresh q (List.mem_cons_of_mem _ hq)
        have hq2 : q.1 ≠ t := by
          intro he
          have hmem : q.1 ∈ rest.map Prod.fst := List.mem_map_of_mem Prod.fst hq
          rw [he] at hmem
          exact hnd.1 hmem
        show lookupTT (b.tokenLookup ++ [(t, v)]) q.1 = none
        rw [lookupTT_append_none _ _ hq1]
        simp only [lookupTT]
        rw [if_neg (fun he => hq2 he.symm)])
      hnd.2]
    simp

theorem message_deserialize_cases (m : Message) (v : AvmValue) :
    (Message.deserialize m v).1 = true ∨ Message.deserialize m v = (false, m) := by
  cases v with
  | intVal n => exact Or.inr rfl
  | otherVal => exact Or.inr rfl
  | tupVal elems =>
    simp only [Message.deserialize]
    split
    · exact Or.inr rfl
    · split <;> try exact Or.inr rfl
      split <;> try exact Or.inr rfl
      split <;> first | exact Or.inl rfl | exact Or.inr rfl

/-! Claim theorems. -/

/-- C1: the claim says `decode(encode(r)) == r` for every block-reason
variant with payload fields restored exactly.  Evaluating the code at the
failing input `InboxBlocked{inboxIndex = 5}`: the encoder emits the
documented 34 bytes, but the decoder slices the 31-byte window at buffer
indices 2..32 (one byte past the single header byte the encoder wrote) and
hands it to the 33-byte integer reader, which reads past the window
(undefined behavior, `none`); the round trip does not return the value. -/
theorem blockReason_inbox_roundtrip_fails :
    (serializeBlockReason (.InboxBlocked 5)).length = 34 ∧
    deserializeBlockReason (serializeBlockReason (.InboxBlocked 5)) = none ∧
    deserializeBlockReason (serializeBlockReason (.InboxBlocked 5)) ≠
      some (.InboxBlocked 5) := by decide

/-- C2: when `canSpend` is false, `spend` returns false and leaves the
ledger ledger state exactly as it was; in particular on a fungible token
whose stored balance `v` is smaller than the requested amount. -/
theorem spend_fail_no_mutation (b : BalanceTracker) (t : TokenType) (a : Nat) :
    (∀ b1, b.canSpend t a = some (false, b1) →
      b.spend t a = some (false, b)) ∧
    (∀ v b1, isToken t = true → b.tokenValue t = some (v, b1) → v < a →
      b.spend t a = some (false, b)) := by
  constructor
  · intro b1 h
    have hb1 : b1 = b := canSpend_state h
    unfold BalanceTracker.spend
    rw [h, hb1]
  · intro v b1 hf htv hlt
    have hcs : b.canSpend t a = some (false, b) := by
      unfold BalanceTracker.canSpend
      rw [if_pos hf, htv]
      simp only [Option.map_some', Option.some.injEq, Prod.mk.injEq]
      exact ⟨by simp [decide_eq_false_iff_not]; omega, (tokenValue_state htv).1⟩
    unfold BalanceTracker.spend
    rw [hcs]

/-- C2 witness: a tracker holding 5 units cannot spend 10; `spend` returns
false with the tracker unchanged. -/
theorem spend_fail_no_mutation_witness :
    BalanceTracker.spend sampleTracker zeroTok 10 = some (false, sampleTracker) :=
  (spend_fail_no_mutation sampleTracker zeroTok 10).1 sampleTracker (by decide)

/-- C3 counterexample: the claim says `fungibleValue` on a fungible identity
with no recorded entry returns the zero amount and does not fail.  On the
empty tracker and the all-zero fungible identity, `tokenValue` performs
`tokenLookup.at(...)` on a map without the key, which throws
`std::out_of_range` (modelled `none`): it fails instead of returning 0. -/
theorem tokenValue_absent_counterexample :
    isToken zeroTok = true ∧ emptyTracker.tokenLookup = [] ∧
    BalanceTracker.tokenValue emptyTracker zeroTok = none ∧
    BalanceTracker.tokenValue emptyTracker zeroTok ≠ some (0, emptyTracker) := by
  decide

/-- C3 (amended): `tokenValue` fails exactly when the identity has no
recorded entry in the fungible-balance map, and when an entry exists it
returns the stored amount with the tracker unchanged. -/
theorem tokenValue_absent_fails (b : BalanceTracker) (t : TokenType) :
    (b.tokenValue t = none ↔ ∀ v, (t, v) ∉ b.tokenLookup) ∧
    (∀ v b1, b.tokenValue t = some (v, b1) →
      (t, v) ∈ b.tokenLookup ∧ b1 = b) := by
  constructor
  · unfold BalanceTracker.tokenValue
    rw [Option.map_eq_none']
    exact lookupTT_eq_none_iff b.tokenLookup t
  · intro v b1 h
    exact ⟨lookupTT_some_mem (tokenValue_state h).2, (tokenValue_state h).1⟩

/-- C3 witness: on the empty tracker the lookup of the all-zero identity
fails, by the amended theorem applied at that concrete input. -/
theorem tokenValue_absent_fails_witness :
    BalanceTracker.tokenValue emptyTracker zeroTok = none :=
  (tokenValue_absent_fails emptyTracker zeroTok).1.mpr (by simp [emptyTracker])

/-- C4: the claim says the ledger decoder fails with `MalformedLedgerData`
when the bytes after the 4-byte header are not a multiple of 54 and never
reads past the buffer end.  Evaluating the code at a 5-byte buffer (1
trailing byte) and at a 2-byte buffer: the constructor has no length checks
and no error result; it copies 21 key bytes from a 1-byte window and steps
the iterator over `data.end()` (respectively computes `begin() + 4` on a
2-byte vector) — undefined behavior, modelled `none`. -/
theorem ledger_decode_no_length_checks :
    balanceTrackerFromData [0, 0, 0, 0, 7] = none ∧
    balanceTrackerFromData [0, 0] = none := by
  constructor
  · simp [balanceTrackerFromData]
    unfold decodeEntries
    simp
  · simp [balanceTrackerFromData]

/-- C5: the claim says the block-reason decoder fails with
`UnknownBlockReasonTag` on an unknown tag, `TruncatedBlockReasonData` on a
short buffer, and never reads past the buffer end.  Evaluating the code at
the empty buffer, at `[0xFF]` and at a 40-byte truncated `SendBlocked`
buffer: the source has no length checks, no `default` case and no error
values of any kind; it dereferences `begin()` of an empty vector, falls off
the end of the function on tag `0xFF`, and over-reads the truncated
buffer — all undefined behavior, modelled `none`. -/
theorem blockReason_decode_no_error_kinds :
    deserializeBlockReason [] = none ∧
    deserializeBlockReason [255] = none ∧
    deserializeBlockReason (5 :: List.replicate 39 0) = none := by decide

/-- C6: serializing a ledger whose entries are all fungible balances and
decoding the bytes again reproduces exactly the same fungible-balance
mapping (the same amount under every token identity) and an empty
owned-asset set.  The hypotheses are the invariants of the C++ types: keys
are unique 21-byte arrays of bytes, amounts are 256-bit. -/
theorem ledger_roundtrip (L : List (TokenType × Nat))
    (hwf : ∀ p ∈ L, isToken p.1 = true ∧ p.1.length = 21 ∧
      (∀ x ∈ p.1, x < 256) ∧ p.2 < 2 ^ 256)
    (hnd : (L.map Prod.fst).Nodup) :
    ∃ b1, balanceTrackerFromData (serializeBalanceValues ⟨L, []⟩) = some b1 ∧
      (∀ t, lookupTT b1.tokenLookup t = lookupTT L t) ∧ b1.nftLookup = [] := by
  refine ⟨⟨L, []⟩, ?_, fun t => rfl, rfl⟩
  have hdata : serializeBalanceValues ⟨L, []⟩ =
      leBytes4 L.length ++ serializeEntries L := rfl
  rw [hdata]
  unfold balanceTrackerFromData
  rw [if_pos (by simp [leBytes4])]
  rw [List.drop_left' (show (leBytes4 L.length).length = 4 from rfl)]
  rw [decodeEntries_serializeEntries L emptyTracker
    (fun p hp => ⟨(hwf p hp).1, (hwf p hp).2.1, (hwf p hp).2.2.2⟩)
    (fun p hp => rfl) hnd]
  simp [emptyTracker]

/-- C6 witness: the round trip at the concrete one-entry ledger holding 7
units of the all-zero fungible token. -/
theorem ledger_roundtrip_witness :
    ∃ b1, balanceTrackerFromData (serializeBalanceValues ⟨[(zeroTok, 7)], []⟩) =
        some b1 ∧
      (∀ t, lookupTT b1.tokenLookup t = lookupTT [(zeroTok, 7)] t) ∧
      b1.nftLookup = [] :=
  ledger_roundtrip [(zeroTok, 7)] (by decide) (by decide)

/-- C7: `add` on a fungible token does not wrap modulo `2 ^ 256`: when the
stored balance plus the added amount reaches `2 ^ 256` the addition is
fatal (`none`, the checked 256-bit addition modelled from spec §7), and
below the bound it stores the exact sum. -/
theorem add_overflow_fatal (b : BalanceTracker) (t : TokenType) (a cur : Nat)
    (hf : isToken t = true) (hcur : lookupTT b.tokenLookup t = some cur) :
    (2 ^ 256 ≤ cur + a → b.add t a = none) ∧
    (cur + a < 2 ^ 256 →
      b.add t a = some ⟨setTok b.tokenLookup t (cur + a), b.nftLookup⟩) := by
  unfold BalanceTracker.add checkedAdd
  rw [if_pos hf, hcur]
  simp only [Option.getD_some]
  constructor
  · intro h
    rw [if_neg (by omega)]
  · intro h
    rw [if_pos h]

/-- C7 witness: adding 1 to a balance of `2 ^ 256 - 1` is fatal instead of
wrapping to 0. -/
theorem add_overflow_fatal_witness :
    BalanceTracker.add maxTracker zeroTok 1 = none :=
  (add_overflow_fatal maxTracker zeroTok 1 (2 ^ 256 - 1) (by decide)
    (by decide)).1 (by decide)

/-- C8 counterexample: the claim says `isFungible(t)` is equivalent to
`integerForm(t) mod 256 == 0`.  For the identity with last byte 1,
`isToken` is false while `fromTokenType t mod 256` is 0 — because the
conversion places the 21 identity bytes in the most-significant positions
and zero-fills the low 11 bytes, the integer form is always divisible by
256. -/
theorem token_mod256_counterexample :
    isToken badTok = false ∧ fromTokenType badTok % 256 = 0 := by decide

/-- C8 (amended): for every 21-byte identity, `isToken t` is equivalent to
the 21st byte of the integer form being zero — `integerForm(t) / 2 ^ 88 mod
256 == 0` — not to `integerForm(t) mod 256 == 0`, which holds always
because the low 88 bits are zero-filled; and the identity→integer→identity
round trip `toTokenType (fromTokenType t) = t` is lossless. -/
theorem token_identity_int_form (t : TokenType) (hl : t.length = 21)
    (hb : ∀ x ∈ t, x < 256) :
    (isToken t = true ↔ fromTokenType t / 2 ^ 88 % 256 = 0) ∧
    fromTokenType t % 256 = 0 ∧
    toTokenType (fromTokenType t) = t := by
  rcases List.eq_nil_or_concat t with rfl | ⟨ys, y, rfl⟩
  · simp at hl
  · simp only [List.concat_eq_append] at hl hb ⊢
    have hys : ys.length = 20 := by
      simp only [List.length_append, List.length_singleton] at hl
      omega
    have hy : y < 256 := hb y (by simp)
    have hft : fromTokenType (ys ++ [y]) = fromBE (ys ++ [y]) * 2 ^ 88 := by
      unfold fromTokenType
      rw [show 32 - (ys ++ [y]).length = 11 from by simp [hys]]
      rw [fromBE_append (ys ++ [y]) (List.replicate 11 0), fromBE_replicate_zero,
        List.length_replicate]
      rw [show (256 : Nat) ^ 11 = 2 ^ 88 from by norm_num]
      omega
    have hlast : fromBE (ys ++ [y]) % 256 = y := by
      rw [fromBE_append, fromBE_singleton]
      simp only [List.length_singleton, pow_one]
      omega
    have hgd : (ys ++ [y]).getD 20 0 = y := by
      rw [List.getD_eq_getElem?_getD, List.getElem?_append_right (by omega)]
      simp [hys]
    refine ⟨?_, ?_, ?_⟩
    · rw [hft, Nat.mul_div_cancel _ (by positivity), hlast]
      unfold isToken
      rw [hgd]
      simp [beq_iff_eq]
    · rw [hft, show (2 : Nat) ^ 88 = 2 ^ 80 * 256 from by norm_num,
        ← Nat.mul_assoc]
      exact Nat.mul_mod_left _ 256
    · rw [hft]
      unfold toTokenType
      rw [show (32 : Nat) = 21 + 11 from rfl, beBytes_split 21 11 _]
      have hdiv : fromBE (ys ++ [y]) * 2 ^ 88 / 256 ^ 11 = fromBE (ys ++ [y]) := by
        rw [show (256 : Nat) ^ 11 = 2 ^ 88 from by norm_num]
        exact Nat.mul_div_cancel _ (by positivity)
      have hmod : fromBE (ys ++ [y]) * 2 ^ 88 % 256 ^ 11 = 0 := by
        rw [show (256 : Nat) ^ 11 = 2 ^ 88 from by norm_num]
        exact Nat.mul_mod_left _ _
      rw [hdiv, hmod]
      rw [List.take_left' (by rw [beBytes_length])]
      have hbe := beBytes_fromBE (ys ++ [y]) hb
      rwa [show (ys ++ [y]).length = 21 from by simp [hys]] at hbe

/-- C8 witness: the amended equivalences at the all-zero fungible
identity. -/
theorem token_identity_int_form_witness :
    (isToken zeroTok = true ↔ fromTokenType zeroTok / 2 ^ 88 % 256 = 0) ∧
    fromTokenType zeroTok % 256 = 0 ∧
    toTokenType (fromTokenType zeroTok) = zeroTok :=
  token_identity_int_form zeroTok (by decide) (by decide)

/-- C9: whenever `Message::deserialize` returns false — the value is not a
tuple, the tuple is not 4 elements, or one of elements 1..3 is not an
integer — every field of the message is left unchanged, because all type
checks complete before any field is assigned. -/
theorem message_deserialize_fail_frame (m : Message) (v : AvmValue)
    (h : (Message.deserialize m v).1 = false) :
    (Message.deserialize m v).2 = m := by
  rcases message_deserialize_cases m v with h1 | h1
  · rw [h1] at h
    exact absurd h (by simp)
  · rw [h1]

/-- C9 witness: deserializing from a bare integer fails and leaves the
concrete message intact. -/
theorem message_deserialize_fail_frame_witness :
    (Message.deserialize sampleMessage (AvmValue.intVal 3)).2 = sampleMessage :=
  message_deserialize_fail_frame sampleMessage (AvmValue.intVal 3) rfl

/-- C10: the `const` query operations `tokenValue`, `hasNFT` and `canSpend`
never modify the ledger: both the fungible-balance map and the owned-asset
set of the tracker they return are those of the tracker they were called
on. -/
theorem const_queries_preserve_state (b : BalanceTracker) (t : TokenType)
    (id a : Nat) :
    (∀ v b1, b.tokenValue t = some (v, b1) →
      b1.tokenLookup = b.tokenLookup ∧ b1.nftLookup = b.nftLookup) ∧
    ((b.hasNFT t id).2.tokenLookup = b.tokenLookup ∧
      (b.hasNFT t id).2.nftLookup = b.nftLookup) ∧
    (∀ r b1, b.canSpend t a = some (r, b1) →
      b1.tokenLookup = b.tokenLookup ∧ b1.nftLookup = b.nftLookup) := by
  refine ⟨?_, ⟨rfl, rfl⟩, ?_⟩
  · intro v b1 h
    rw [(tokenValue_state h).1]
    exact ⟨rfl, rfl⟩
  · intro r b1 h
    rw [canSpend_state h]
    exact ⟨rfl, rfl⟩

/-- C10 witness: a concrete `canSpend` call returns the tracker it was
called on, with both collections unchanged. -/
theorem const_queries_preserve_state_witness :
    sampleTracker.tokenLookup = sampleTracker.tokenLookup ∧
    sampleTracker.nftLookup = sampleTracker.nftLookup :=
  (const_queries_preserve_state sampleTracker zeroTok 0 3).2.2 true
    sampleTracker (by decide)

end ArbAvm
